import Mathlib

/-!
A shallow embedding of `src/main.rs` of the `delete-artifacts` tool.

The program walks a directory tree from a user-supplied `start_dir`
(`walkdir::WalkDir`, depth-first pre-order, errors dropped by
`filter_map(|e| e.ok())`), keeps only directory entries, tests each
directory's base name for membership in the fixed set `DIRS_TO_DELETE`,
and then either reports the candidate (dry run) or recursively removes it
(`fs::remove_dir_all`), finally writing the list of successfully removed
paths to a log file `deleted_dirs_log.txt` when `commit` is set and
`skip_log_file` is not.

Embedding choices:
* A file-system subtree is an inductive tree (`FsNode` / `FsForest`).
  Each directory node carries an oracle `removeErr : Option String`
  recording what `fs::remove_dir_all` would do on it: `none` means the
  removal succeeds (the whole subtree disappears), `some msg` means it
  fails with cause `msg` and the subtree is left in place, after which the
  walk continues into the directory's still-present children.
* OS file names need not be valid UTF-8, so names are modelled by `FName`:
  either a UTF-8 string or an opaque non-UTF-8 name.  The source calls
  `entry.file_name().to_str().unwrap()` on every directory entry, which
  panics on a non-UTF-8 name; a panic is modelled by `Option.none`
  propagating out of the walk.
* Paths are display strings; a child's path is the parent's path joined
  with `/` and the child's name, matching `Path::display` on Unix.
* The console streams and the deletion record are accumulated lists of
  lines.  Log-file I/O (`File::create` / `writeln!`, both fallible and
  propagated with `?`) is modelled by a boolean environment oracle
  `logIOFails`; the state of the log file on disk before the run is an
  explicit `prevLog` input, so that overwriting (rather than appending)
  is observable.
-/

/-- An OS file name: either valid UTF-8 or not.  `OsStr::to_str` returns
`None` exactly on the non-UTF-8 names; distinct non-UTF-8 names are told
apart by a tag. -/
inductive FName where
  | utf8 (s : String)
  | nonUtf8 (tag : Nat)
deriving DecidableEq, Repr

/-- `OsStr::to_str`: `Some` exactly on valid UTF-8. -/
def FName.toStr : FName → Option String
  | .utf8 s => some s
  | .nonUtf8 _ => none

/-- A display form for building child paths (`Path::display` lossily
renders non-UTF-8 names; the placeholder is never observable because a
directory with a non-UTF-8 name panics the walk before its children are
visited, and files never contribute output). -/
def FName.display : FName → String
  | .utf8 s => s
  | .nonUtf8 _ => "�"

/-- `static DIRS_TO_DELETE: [&str; 3] = ["node_modules", "vendor", "target"];`
(the `HashSet::from` of it is used only for membership, so a list with
`contains` is an exact model). -/
def DIRS_TO_DELETE : List String := ["node_modules", "vendor", "target"]

/-- The deny-list membership test applied to a directory entry's name,
as in `dirs_to_delete.contains(&entry.file_name().to_str().unwrap())`;
the `unwrap` itself is modelled where the walk runs it.  On a UTF-8 name
this is exact, case-sensitive membership of the base name. -/
def nameDeny (n : FName) : Bool :=
  match n.toStr with
  | some s => DIRS_TO_DELETE.contains s
  | none => false

mutual
/-- A node of the file-system tree: a plain file (any non-directory
entry), or a directory with its base name, the `fs::remove_dir_all`
oracle for it, and its children. -/
inductive FsNode where
  | file (name : FName)
  | dir (name : FName) (removeErr : Option String) (children : FsForest)

/-- An ordered list of sibling nodes (the order `WalkDir` yields them). -/
inductive FsForest where
  | nil
  | cons (head : FsNode) (tail : FsForest)
end

/-- The base name of a node. -/
def FsNode.name : FsNode → FName
  | .file n => n
  | .dir n _ _ => n

/-- Path of a child entry: parent path, separator, child base name. -/
def childPath (p : String) (c : FsNode) : String :=
  p ++ "/" ++ c.name.display

/-- What the walk produces from one subtree: the subtree still on disk
afterwards (`none` if it was removed), the deletion record, the stdout
lines and the stderr lines contributed, each in order. -/
structure WalkOut where
  keep : Option FsNode
  deleted : List String
  out : List String
  err : List String


/-- What the walk produces from a forest of siblings. -/
structure ForestOut where
  keep : FsForest
  deleted : List String
  out : List String
  err : List String


mutual
/-- The body of the `for entry in WalkDir::new(..)` loop of `do_delete`,
restricted to the subtree rooted at one entry whose display path is `p`.
`WalkDir` yields the entry itself first (pre-order), non-directories are
skipped by the `is_dir` filter, a directory's name goes through
`to_str().unwrap()` (`none` = panic), and on a deny-list match:
dry run prints `Would delete p` and descends; committing run prints
`Deleting p` and calls `remove_dir_all` — on success the subtree is gone
and `WalkDir`'s subsequent read of it errors out silently
(`filter_map(|e| e.ok())`), so no entry beneath it is yielded; on failure
the cause is printed to stderr and the walk descends into the surviving
children. -/
def walkNode (commit : Bool) (p : String) : FsNode → Option WalkOut
  | .file n => some ⟨some (.file n), [], [], []⟩
  | .dir n re cs =>
    match n.toStr with
    | none => none
    | some s =>
      if DIRS_TO_DELETE.contains s then
        if commit then
          match re with
          | none => some ⟨none, [p], ["Deleting " ++ p], []⟩
          | some msg =>
            match walkForest commit p cs with
            | none => none
            | some r =>
              some ⟨some (.dir n re r.keep), r.deleted,
                    ("Deleting " ++ p) :: r.out,
                    ("Error deleting directory: " ++ msg) :: r.err⟩
        else
          match walkForest commit p cs with
          | none => none
          | some r =>
            some ⟨some (.dir n re r.keep), r.deleted,
                  ("Would delete " ++ p) :: r.out, r.err⟩
      else
        match walkForest commit p cs with
        | none => none
        | some r => some ⟨some (.dir n re r.keep), r.deleted, r.out, r.err⟩

/-- The walk over a directory's children, left to right, each child's
path formed from the parent path `p`; a panic anywhere aborts the run. -/
def walkForest (commit : Bool) (p : String) : FsForest → Option ForestOut
  | .nil => some ⟨.nil, [], [], []⟩
  | .cons c t =>
    match walkNode commit (childPath p c) c with
    | none => none
    | some w =>
      match walkForest commit p t with
      | none => none
      | some r =>
        some ⟨(match w.keep with
               | none => r.keep
               | some k => .cons k r.keep),
              w.deleted ++ r.deleted, w.out ++ r.out, w.err ++ r.err⟩
end

/-- The command-line arguments of the program (`struct Args`). -/
structure Args where
  start_dir : String
  commit : Bool
  skip_log_file : Bool


/-- The observable outcome of one run: the tree still rooted at
`start_dir` (`none` if `start_dir` itself is gone or never existed), the
deletion record, both console streams, and the content of
`deleted_dirs_log.txt` after the run (`none` = no such file). -/
structure Output where
  fs : Option FsNode
  deleted : List String
  stdout : List String
  stderr : List String
  log : Option (List String)


/-- `do_delete` returns `Result<(), _>`: `ok` models `Ok(())`, `fatal`
models an `Err` propagated by `?` from the log-file I/O, and `panicked`
models the `unwrap` panic (no `Result` is returned at all). -/
inductive RunOutcome where
  | ok (o : Output)
  | fatal (o : Output)
  | panicked


/-- The payload of a returned (non-panicking) run. -/
def RunOutcome.outOf : RunOutcome → Option Output
  | .ok o => some o
  | .fatal o => some o
  | .panicked => none

/-- Did the run return `Ok(())`? -/
def RunOutcome.isOk : RunOutcome → Bool
  | .ok _ => true
  | _ => false

/-- The tree on disk at `start_dir` after a run that returned. -/
def fsAfter : RunOutcome → Option FsNode
  | .ok o => o.fs
  | .fatal o => o.fs
  | .panicked => none

/-- `fn do_delete(args) -> Result<(), _>`.

`root` is the tree on disk at `args.start_dir` before the run; `none`
means `WalkDir::new(start_dir)` cannot read its root (the path does not
exist or is inaccessible), so its only item is an `Err` dropped by
`filter_map(|e| e.ok())` and the loop body never runs.  `logIOFails` is
the environment oracle for `File::create("deleted_dirs_log.txt")` and the
`writeln!` calls (all propagated with `?`); `prevLog` is the log file's
content before the run.  After the loop, iff `commit && !skip_log_file`,
the log file is created (truncating whatever was there) and filled with
one recorded path per line. -/
def do_delete (args : Args) (root : Option FsNode) (logIOFails : Bool)
    (prevLog : Option (List String)) : RunOutcome :=
  match (match root with
         | none => some (⟨none, [], [], []⟩ : WalkOut)
         | some r => walkNode args.commit args.start_dir r) with
  | none => .panicked
  | some w =>
    if args.commit && !args.skip_log_file then
      if logIOFails then .fatal ⟨w.keep, w.deleted, w.out, w.err, none⟩
      else .ok ⟨w.keep, w.deleted, w.out, w.err, some w.deleted⟩
    else .ok ⟨w.keep, w.deleted, w.out, w.err, prevLog⟩

mutual
/-- Every directory in the tree has a UTF-8 base name (file names are
unconstrained: the `is_dir` filter runs before the `unwrap`, so a
non-UTF-8 file name never reaches it). -/
def dirsValid : FsNode → Bool
  | .file _ => true
  | .dir n _ cs => (n.toStr).isSome && dirsValidF cs

/-- `dirsValid` over a forest. -/
def dirsValidF : FsForest → Bool
  | .nil => true
  | .cons c t => dirsValid c && dirsValidF t
end

mutual
/-- Every entry in the tree, file or directory, has a UTF-8 base name. -/
def allValid : FsNode → Bool
  | .file n => (n.toStr).isSome
  | .dir n _ cs => (n.toStr).isSome && allValidF cs

/-- `allValid` over a forest. -/
def allValidF : FsForest → Bool
  | .nil => true
  | .cons c t => allValid c && allValidF t
end

/-- `dirsValid` lifted to a possibly-absent root. -/
def dirsValidO : Option FsNode → Bool
  | none => true
  | some t => dirsValid t

/-- `allValid` lifted to a possibly-absent root. -/
def allValidO : Option FsNode → Bool
  | none => true
  | some t => allValid t

mutual
/-- Every `remove_dir_all` the run could attempt would succeed
(the oracle is `none` on every directory). -/
def noFailures : FsNode → Bool
  | .file _ => true
  | .dir _ re cs => re.isNone && noFailuresF cs

/-- `noFailures` over a forest. -/
def noFailuresF : FsForest → Bool
  | .nil => true
  | .cons c t => noFailures c && noFailuresF t
end

mutual
/-- Expected tree left on disk by a committing run: a deny-named
directory whose removal succeeds disappears with its whole subtree; a
deny-named directory whose removal fails stays (children then walked);
everything else stays with its children processed recursively. -/
def survivors : FsNode → Option FsNode
  | .file n => some (.file n)
  | .dir n re cs =>
    if nameDeny n then
      match re with
      | none => none
      | some _ => some (.dir n re (survivorsF cs))
    else some (.dir n re (survivorsF cs))

/-- `survivors` over a forest. -/
def survivorsF : FsForest → FsForest
  | .nil => .nil
  | .cons c t =>
    match survivors c with
    | none => survivorsF t
    | some k => .cons k (survivorsF t)
end

mutual
/-- Expected deletion record of a committing run: the display paths of
the deny-named directories whose removal succeeds, pre-order, skipping
everything beneath a removed directory. -/
def removedPaths (p : String) : FsNode → List String
  | .file _ => []
  | .dir n re cs =>
    if nameDeny n then
      match re with
      | none => [p]
      | some _ => removedPathsF p cs
    else removedPathsF p cs

/-- `removedPaths` over a forest. -/
def removedPathsF (p : String) : FsForest → List String
  | .nil => []
  | .cons c t => removedPaths (childPath p c) c ++ removedPathsF p t
end

mutual
/-- Expected stdout of a committing run: one `Deleting` line per
deny-named directory reached by the walk (a failed removal leaves the
children reachable; a successful one prunes them). -/
def deletings (p : String) : FsNode → List String
  | .file _ => []
  | .dir n re cs =>
    if nameDeny n then
      ("Deleting " ++ p) ::
        (match re with
         | none => []
         | some _ => deletingsF p cs)
    else deletingsF p cs

/-- `deletings` over a forest. -/
def deletingsF (p : String) : FsForest → List String
  | .nil => []
  | .cons c t => deletings (childPath p c) c ++ deletingsF p t
end

mutual
/-- Expected stderr of a committing run: one error line, carrying the
underlying cause, per deny-named directory whose removal fails. -/
def errLines (p : String) : FsNode → List String
  | .file _ => []
  | .dir n re cs =>
    if nameDeny n then
      match re with
      | none => []
      | some msg => ("Error deleting directory: " ++ msg) :: errLinesF p cs
    else errLinesF p cs

/-- `errLines` over a forest. -/
def errLinesF (p : String) : FsForest → List String
  | .nil => []
  | .cons c t => errLines (childPath p c) c ++ errLinesF p t
end

mutual
/-- The deletion candidates of the tree: display paths of every
deny-named directory, pre-order.  A dry run visits all of them (it
removes nothing, so the walk descends everywhere). -/
def cands (p : String) : FsNode → List String
  | .file _ => []
  | .dir n _ cs => (if nameDeny n then [p] else []) ++ candsF p cs

/-- `cands` over a forest. -/
def candsF (p : String) : FsForest → List String
  | .nil => []
  | .cons c t => cands (childPath p c) c ++ candsF p t
end

/-- Expected stdout of a dry run: one `Would delete` notice per candidate. -/
def dryOut (p : String) (t : FsNode) : List String :=
  (cands p t).map (fun q => "Would delete " ++ q)

mutual
/-- Modelled from the spec: the tree with every directory whose base
name is in the deny-list removed together with its entire subtree, and
nothing else removed.  This is the spec's description of a committing
run's effect when every removal succeeds. -/
def pruneDeny : FsNode → Option FsNode
  | .file n => some (.file n)
  | .dir n re cs =>
    if nameDeny n then none else some (.dir n re (pruneDenyF cs))

/-- `pruneDeny` over a forest. -/
def pruneDenyF : FsForest → FsForest
  | .nil => .nil
  | .cons c t =>
    match pruneDeny c with
    | none => pruneDenyF t
    | some k => .cons k (pruneDenyF t)
end

mutual
/-- Is there a directory at relative path `q` (a list of UTF-8 component
names; `[]` is the node itself) below this node? -/
def FsNode.dirAt : FsNode → List String → Bool
  | .file _, _ => false
  | .dir _ _ _, [] => true
  | .dir _ _ cs, a :: r => FsForest.dirAt cs a r

/-- Is there, among these siblings, one named `a` with a directory at
`r` below it? -/
def FsForest.dirAt : FsForest → String → List String → Bool
  | .nil, _, _ => false
  | .cons c t, a, r => (c.name == .utf8 a && c.dirAt r) || FsForest.dirAt t a r
end

mutual
/-- Is there a non-directory entry at relative path `q` below this node? -/
def FsNode.fileAt : FsNode → List String → Bool
  | .file _, [] => true
  | .file _, _ :: _ => false
  | .dir _ _ _, [] => false
  | .dir _ _ cs, a :: r => FsForest.fileAt cs a r

/-- Is there, among these siblings, one named `a` with a non-directory
entry at `r` below it? -/
def FsForest.fileAt : FsForest → String → List String → Bool
  | .nil, _, _ => false
  | .cons c t, a, r => (c.name == .utf8 a && c.fileAt r) || FsForest.fileAt t a r
end

/-- `dirAt` lifted to a possibly-absent tree. -/
def dirAtO : Option FsNode → List String → Bool
  | none, _ => false
  | some t, q => t.dirAt q

/-- `fileAt` lifted to a possibly-absent tree. -/
def fileAtO : Option FsNode → List String → Bool
  | none, _ => false
  | some t, q => t.fileAt q

/-- No component of the path is a deny-list name (so no directory along
it is a deletion candidate: every proper prefix of an existing path
addresses a directory whose base name is the corresponding component). -/
def cleanComponents (q : List String) : Bool :=
  q.all (fun a => !DIRS_TO_DELETE.contains a)

/-- `dryOut` over a forest. -/
def dryOutF (p : String) (ts : FsForest) : List String :=
  (candsF p ts).map (fun q => "Would delete " ++ q)

mutual
/-- A committing walk over a subtree with UTF-8 directory names never
panics, and its outputs are exactly the spec-side characterisations:
surviving tree, removed paths, `Deleting` lines and error lines. -/
theorem walk_commit (t : FsNode) (p : String) (h : dirsValid t = true) :
    walkNode true p t
      = some ⟨survivors t, removedPaths p t, deletings p t, errLines p t⟩ := by
  cases t with
  | file n =>
    simp [walkNode, survivors, removedPaths, deletings, errLines]
  | dir n re cs =>
    simp only [dirsValid, Bool.and_eq_true, Option.isSome_iff_exists] at h
    obtain ⟨⟨s, hs⟩, hcs⟩ := h
    have hF := walk_commitF cs p hcs
    by_cases hd : s ∈ DIRS_TO_DELETE
    · have hden : nameDeny n = true := by simp [nameDeny, hs, hd]
      cases re <;>
        simp [walkNode, hs, hd, hF, survivors, removedPaths, deletings,
              errLines, hden]
    · have hden : nameDeny n = false := by simp [nameDeny, hs, hd]
      simp [walkNode, hs, hd, hF, survivors, removedPaths, deletings,
            errLines, hden]

/-- `walk_commit` for a forest of siblings. -/
theorem walk_commitF (ts : FsForest) (p : String) (h : dirsValidF ts = true) :
    walkForest true p ts
      = some ⟨survivorsF ts, removedPathsF p ts, deletingsF p ts,
              errLinesF p ts⟩ := by
  cases ts with
  | nil => simp [walkForest, survivorsF, removedPathsF, deletingsF, errLinesF]
  | cons c t =>
    simp only [dirsValidF, Bool.and_eq_true] at h
    have h1 := walk_commit c (childPath p c) h.1
    have h2 := walk_commitF t p h.2
    simp [walkForest, h1, h2, survivorsF, removedPathsF, deletingsF, errLinesF]
end

mutual
/-- A dry-run walk over a subtree with UTF-8 directory names never
panics, touches nothing, deletes nothing, prints a `Would delete` notice
per candidate and nothing to stderr. -/
theorem walk_dry (t : FsNode) (p : String) (h : dirsValid t = true) :
    walkNode false p t = some ⟨some t, [], dryOut p t, []⟩ := by
  cases t with
  | file n => simp [walkNode, dryOut, cands]
  | dir n re cs =>
    simp only [dirsValid, Bool.and_eq_true, Option.isSome_iff_exists] at h
    obtain ⟨⟨s, hs⟩, hcs⟩ := h
    have hF := walk_dryF cs p hcs
    by_cases hd : s ∈ DIRS_TO_DELETE
    · have hden : nameDeny n = true := by simp [nameDeny, hs, hd]
      simp [walkNode, hs, hd, hF, dryOut, dryOutF, cands, hden]
    · have hden : nameDeny n = false := by simp [nameDeny, hs, hd]
      simp [walkNode, hs, hd, hF, dryOut, dryOutF, cands, hden]

/-- `walk_dry` for a forest of siblings. -/
theorem walk_dryF (ts : FsForest) (p : String) (h : dirsValidF ts = true) :
    walkForest false p ts = some ⟨ts, [], dryOutF p ts, []⟩ := by
  cases ts with
  | nil => simp [walkForest, dryOutF, candsF]
  | cons c t =>
    simp only [dirsValidF, Bool.and_eq_true] at h
    have h1 := walk_dry c (childPath p c) h.1
    have h2 := walk_dryF t p h.2
    simp [walkForest, h1, h2, dryOut, dryOutF, candsF]
end

mutual
/-- If every entry's name is UTF-8, every directory's name is. -/
theorem allValid_dirsValid (t : FsNode) (h : allValid t = true) :
    dirsValid t = true := by
  cases t with
  | file n => simp [dirsValid]
  | dir n re cs =>
    simp only [allValid, Bool.and_eq_true] at h
    simp [dirsValid, h.1, allValidF_dirsValidF cs h.2]

/-- `allValid_dirsValid` for a forest. -/
theorem allValidF_dirsValidF (ts : FsForest) (h : allValidF ts = true) :
    dirsValidF ts = true := by
  cases ts with
  | nil => simp [dirsValidF]
  | cons c t =>
    simp only [allValidF, Bool.and_eq_true] at h
    simp [dirsValidF, allValid_dirsValid c h.1, allValidF_dirsValidF t h.2]
end

/-- A walk over a subtree with UTF-8 directory names never panics. -/
theorem walk_total (commit : Bool) (t : FsNode) (p : String)
    (h : dirsValid t = true) : (walkNode commit p t).isSome = true := by
  cases commit
  · simp [walk_dry t p h]
  · simp [walk_commit t p h]

mutual
/-- When every removal succeeds, the tree a committing run leaves behind
is exactly the spec's pruning: every deny-named directory subtree
removed, everything else intact. -/
theorem survivors_eq_prune (t : FsNode) (h : noFailures t = true) :
    survivors t = pruneDeny t := by
  cases t with
  | file n => simp [survivors, pruneDeny]
  | dir n re cs =>
    simp only [noFailures, Bool.and_eq_true, Option.isNone_iff_eq_none] at h
    cases hd : nameDeny n <;>
      simp [survivors, pruneDeny, hd, h.1, survivorsF_eq_pruneF cs h.2]

/-- `survivors_eq_prune` for a forest. -/
theorem survivorsF_eq_pruneF (ts : FsForest) (h : noFailuresF ts = true) :
    survivorsF ts = pruneDenyF ts := by
  cases ts with
  | nil => simp [survivorsF, pruneDenyF]
  | cons c t =>
    simp only [noFailuresF, Bool.and_eq_true] at h
    simp [survivorsF, pruneDenyF, survivors_eq_prune c h.1,
          survivorsF_eq_pruneF t h.2]
end

/-- Every component of the path except the last (the components that
address directories on the way to a final non-directory entry) avoids
the deny-list. -/
def cleanAncestors : List String → Bool
  | [] => true
  | [_] => true
  | a :: b :: r => !DIRS_TO_DELETE.contains a && cleanAncestors (b :: r)

/-- The survival condition for a non-directory entry at `q` below `t`:
if `t` is a directory, neither `t` itself nor any directory on the way
to the entry may be deny-named (the entry's own base name is free). -/
def fileClean (t : FsNode) (q : List String) : Bool :=
  match t with
  | .file _ => true
  | .dir n _ _ => !nameDeny n && cleanAncestors q

mutual
/-- A directory survives the pruning exactly when it was there before
and no deny-named directory lies on its path (the root included, its own
base name included). -/
theorem dirAt_prune (t : FsNode) (q : List String) :
    dirAtO (pruneDeny t) q
      = (t.dirAt q && !nameDeny t.name && cleanComponents q) := by
  cases t with
  | file n => simp [pruneDeny, dirAtO, FsNode.dirAt]
  | dir n re cs =>
    cases hd : nameDeny n with
    | true => simp [pruneDeny, hd, dirAtO, FsNode.name]
    | false =>
      cases q with
      | nil =>
        simp [pruneDeny, hd, dirAtO, FsNode.dirAt, FsNode.name,
              cleanComponents]
      | cons a r =>
        have hF := dirAt_pruneF cs a r
        simp [pruneDeny, hd, dirAtO, FsNode.dirAt, FsNode.name,
              cleanComponents, hF, Bool.and_assoc]

/-- `dirAt_prune` for a forest of siblings addressed by `a :: r`. -/
theorem dirAt_pruneF (ts : FsForest) (a : String) (r : List String) :
    FsForest.dirAt (pruneDenyF ts) a r
      = (ts.dirAt a r && !DIRS_TO_DELETE.contains a && cleanComponents r) := by
  cases ts with
  | nil => simp [pruneDenyF, FsForest.dirAt]
  | cons c t =>
    have ht := dirAt_pruneF t a r
    cases c with
    | file m =>
      simp [pruneDenyF, pruneDeny, FsForest.dirAt, FsNode.dirAt, ht,
            FsNode.name]
    | dir m re' cs' =>
      cases hm : nameDeny m with
      | true =>
        by_cases hma : m = FName.utf8 a
        · subst hma
          have hca : a ∈ DIRS_TO_DELETE := by
            simpa [nameDeny, FName.toStr] using hm
          simp [pruneDenyF, pruneDeny, hm, FsForest.dirAt, ht, hca]
        · have hne : ((FsNode.dir m re' cs').name == FName.utf8 a) = false := by
            simp [FsNode.name, hma]
          simp [pruneDenyF, pruneDeny, hm, FsForest.dirAt, ht, hne]
      | false =>
        have hc := dirAt_prune (FsNode.dir m re' cs') r
        rw [show pruneDeny (FsNode.dir m re' cs')
              = some (FsNode.dir m re' (pruneDenyF cs')) from by
            simp [pruneDeny, hm]] at hc
        simp only [dirAtO, FsNode.name, hm, Bool.not_false,
                   Bool.true_and, Bool.and_true] at hc
        by_cases hma : m = FName.utf8 a
        · subst hma
          have hca : a ∉ DIRS_TO_DELETE := by
            simpa [nameDeny, FName.toStr] using hm
          simp [pruneDenyF, pruneDeny, hm, FsForest.dirAt, ht, hca, hc,
                FsNode.name, Bool.and_or_distrib_right, Bool.and_assoc]
        · have hne : ((FsNode.dir m re' (pruneDenyF cs')).name == FName.utf8 a)
              = false := by
            simp [FsNode.name, hma]
          have hne2 : ((FsNode.dir m re' cs').name == FName.utf8 a) = false := by
            simp [FsNode.name, hma]
          simp [pruneDenyF, pruneDeny, hm, FsForest.dirAt, ht, hne, hne2]
end

mutual
/-- A non-directory entry survives the pruning exactly when it was there
before and no deny-named directory lies on the way to it (its own base
name does not matter: only directories are removal candidates). -/
theorem fileAt_prune (t : FsNode) (q : List String) :
    fileAtO (pruneDeny t) q = (t.fileAt q && fileClean t q) := by
  cases t with
  | file n => cases q <;> simp [pruneDeny, fileAtO, FsNode.fileAt, fileClean]
  | dir n re cs =>
    cases hd : nameDeny n with
    | true => simp [pruneDeny, hd, fileAtO, fileClean]
    | false =>
      cases q with
      | nil => simp [pruneDeny, hd, fileAtO, FsNode.fileAt, fileClean]
      | cons a r =>
        have hF := fileAt_pruneF cs a r
        simp [pruneDeny, hd, fileAtO, FsNode.fileAt, fileClean, hF]

/-- `fileAt_prune` for a forest of siblings addressed by `a :: r`. -/
theorem fileAt_pruneF (ts : FsForest) (a : String) (r : List String) :
    FsForest.fileAt (pruneDenyF ts) a r
      = (ts.fileAt a r && cleanAncestors (a :: r)) := by
  cases ts with
  | nil => simp [pruneDenyF, FsForest.fileAt]
  | cons c t =>
    have ht := fileAt_pruneF t a r
    cases c with
    | file m =>
      cases r with
      | nil =>
        simp [pruneDenyF, pruneDeny, FsForest.fileAt, FsNode.fileAt, ht,
              FsNode.name, cleanAncestors, Bool.and_or_distrib_right]
      | cons b r' =>
        simp [pruneDenyF, pruneDeny, FsForest.fileAt, FsNode.fileAt, ht,
              FsNode.name, cleanAncestors]
    | dir m re' cs' =>
      cases hm : nameDeny m with
      | true =>
        by_cases hma : m = FName.utf8 a
        · subst hma
          have hca : a ∈ DIRS_TO_DELETE := by
            simpa [nameDeny, FName.toStr] using hm
          cases r with
          | nil =>
            simp [pruneDenyF, pruneDeny, hm, FsForest.fileAt, ht,
                  FsNode.fileAt, FsNode.name, cleanAncestors]
          | cons b r' =>
            simp [pruneDenyF, pruneDeny, hm, FsForest.fileAt, ht,
                  FsNode.name, cleanAncestors, hca]
        · have hne : ((FsNode.dir m re' cs').name == FName.utf8 a) = false := by
            simp [FsNode.name, hma]
          simp [pruneDenyF, pruneDeny, hm, FsForest.fileAt, ht, hne]
      | false =>
        have hc := fileAt_prune (FsNode.dir m re' cs') r
        rw [show pruneDeny (FsNode.dir m re' cs')
              = some (FsNode.dir m re' (pruneDenyF cs')) from by
            simp [pruneDeny, hm]] at hc
        simp only [fileAtO, fileClean, hm, Bool.not_false,
                   Bool.true_and] at hc
        by_cases hma : m = FName.utf8 a
        · subst hma
          have hca : a ∉ DIRS_TO_DELETE := by
            simpa [nameDeny, FName.toStr] using hm
          cases r with
          | nil =>
            simp [pruneDenyF, pruneDeny, hm, FsForest.fileAt, ht, hc,
                  FsNode.fileAt, FsNode.name, cleanAncestors,
                  Bool.and_or_distrib_right]
          | cons b r' =>
            simp [pruneDenyF, pruneDeny, hm, FsForest.fileAt, ht, hc,
                  FsNode.name, cleanAncestors, hca,
                  Bool.and_or_distrib_right, Bool.and_assoc]
        · have hne : ((FsNode.dir m re' (pruneDenyF cs')).name == FName.utf8 a)
              = false := by
            simp [FsNode.name, hma]
          have hne2 : ((FsNode.dir m re' cs').name == FName.utf8 a) = false := by
            simp [FsNode.name, hma]
          simp [pruneDenyF, pruneDeny, hm, FsForest.fileAt, ht, hne, hne2]
end

/-- Did the run return a propagated error (`Err`)? -/
def RunOutcome.isFatal : RunOutcome → Bool
  | .fatal _ => true
  | _ => false

/-- C2: For every directory tree and every start_dir, a dry run
(`commit=false`) performs no filesystem mutation: every directory
(deny-listed or not) that existed before the run still exists unchanged
afterward (`fs = some t`, the tree is returned verbatim), nothing is
recorded as deleted, the log file keeps its previous state, nothing goes
to stderr, and the only output is one `Would delete <path>` notice per
candidate (`dryOut`). -/
theorem c2_dry_run_mutates_nothing (args : Args) (t : FsNode)
    (logIOFails : Bool) (prevLog : Option (List String))
    (hv : dirsValid t = true) (hc : args.commit = false) :
    do_delete args (some t) logIOFails prevLog
      = .ok ⟨some t, [], dryOut args.start_dir t, [], prevLog⟩ := by
  have hw := walk_dry t args.start_dir hv
  simp [do_delete, hw, hc]

/-- C2 witness: the spec's scenario tree
`root/{node_modules/, vendor/, target/, should_remain/}`, dry run. -/
theorem c2_witness :
    dirsValid
        (.dir (.utf8 "root") none
          (.cons (.dir (.utf8 "node_modules") none .nil)
            (.cons (.dir (.utf8 "vendor") none .nil)
              (.cons (.dir (.utf8 "target") none .nil)
                (.cons (.dir (.utf8 "should_remain") none .nil) .nil))))) = true
    ∧ do_delete ⟨"root", false, false⟩
        (some (.dir (.utf8 "root") none
          (.cons (.dir (.utf8 "node_modules") none .nil)
            (.cons (.dir (.utf8 "vendor") none .nil)
              (.cons (.dir (.utf8 "target") none .nil)
                (.cons (.dir (.utf8 "should_remain") none .nil) .nil))))))
        false none
      = .ok ⟨some (.dir (.utf8 "root") none
          (.cons (.dir (.utf8 "node_modules") none .nil)
            (.cons (.dir (.utf8 "vendor") none .nil)
              (.cons (.dir (.utf8 "target") none .nil)
                (.cons (.dir (.utf8 "should_remain") none .nil) .nil))))),
          [],
          dryOut "root"
            (.dir (.utf8 "root") none
              (.cons (.dir (.utf8 "node_modules") none .nil)
                (.cons (.dir (.utf8 "vendor") none .nil)
                  (.cons (.dir (.utf8 "target") none .nil)
                    (.cons (.dir (.utf8 "should_remain") none .nil) .nil))))),
          [], none⟩ :=
  ⟨by decide,
   c2_dry_run_mutates_nothing ⟨"root", false, false⟩ _ false none (by decide) rfl⟩

/-- C3: When a committing run completes with logging enabled
(`commit = true`, `skip_log_file = false`) and the log I/O succeeds, the
run returns `Ok` and the log file contains exactly the paths of the
directories successfully removed during the run (`removedPaths`: the
deny-named directories whose `remove_dir_all` succeeded), one per line,
in walk order, and nothing else; the previous content `prevLog` of the
file does not appear — the file is overwritten, not appended to. -/
theorem c3_log_contains_removed_paths (args : Args) (t : FsNode)
    (prevLog : Option (List String)) (hv : dirsValid t = true)
    (hc : args.commit = true) (hs : args.skip_log_file = false) :
    do_delete args (some t) false prevLog
      = .ok ⟨survivors t, removedPaths args.start_dir t,
             deletings args.start_dir t, errLines args.start_dir t,
             some (removedPaths args.start_dir t)⟩ := by
  have hw := walk_commit t args.start_dir hv
  simp [do_delete, hw, hc, hs]

/-- C3 witness: committing run over the scenario tree with one failing
removal and a stale log file; the new log lists exactly the two removed
paths, the failed one excluded and the old content gone. -/
theorem c3_witness :
    dirsValid
        (.dir (.utf8 "root") none
          (.cons (.dir (.utf8 "node_modules") none .nil)
            (.cons (.dir (.utf8 "vendor") (some "denied") .nil)
              (.cons (.dir (.utf8 "target") none .nil) .nil)))) = true
    ∧ do_delete ⟨"root", true, false⟩
        (some (.dir (.utf8 "root") none
          (.cons (.dir (.utf8 "node_modules") none .nil)
            (.cons (.dir (.utf8 "vendor") (some "denied") .nil)
              (.cons (.dir (.utf8 "target") none .nil) .nil)))))
        false (some ["stale line"])
      = .ok ⟨survivors
               (.dir (.utf8 "root") none
                 (.cons (.dir (.utf8 "node_modules") none .nil)
                   (.cons (.dir (.utf8 "vendor") (some "denied") .nil)
                     (.cons (.dir (.utf8 "target") none .nil) .nil)))),
             removedPaths "root"
               (.dir (.utf8 "root") none
                 (.cons (.dir (.utf8 "node_modules") none .nil)
                   (.cons (.dir (.utf8 "vendor") (some "denied") .nil)
                     (.cons (.dir (.utf8 "target") none .nil) .nil)))),
             deletings "root"
               (.dir (.utf8 "root") none
                 (.cons (.dir (.utf8 "node_modules") none .nil)
                   (.cons (.dir (.utf8 "vendor") (some "denied") .nil)
                     (.cons (.dir (.utf8 "target") none .nil) .nil)))),
             errLines "root"
               (.dir (.utf8 "root") none
                 (.cons (.dir (.utf8 "node_modules") none .nil)
                   (.cons (.dir (.utf8 "vendor") (some "denied") .nil)
                     (.cons (.dir (.utf8 "target") none .nil) .nil)))),
             some (removedPaths "root"
               (.dir (.utf8 "root") none
                 (.cons (.dir (.utf8 "node_modules") none .nil)
                   (.cons (.dir (.utf8 "vendor") (some "denied") .nil)
                     (.cons (.dir (.utf8 "target") none .nil) .nil)))))⟩ :=
  ⟨by decide,
   c3_log_contains_removed_paths ⟨"root", true, false⟩ _ (some ["stale line"])
     (by decide) rfl rfl⟩

/-- C5: If removals of matched directories fail during a committing run
(with working log I/O), the run still returns `Ok`; stderr carries one
`Error deleting directory: <cause>` line per failed removal
(`errLines`), each failed path is excluded from the deletion record and
hence from the log (`removedPaths` lists only the successful removals),
and the walk continues past every failure: `survivors` / `removedPaths`
still process and remove every later matched directory, including those
inside a directory whose removal failed. -/
theorem c5_individual_failure_not_fatal (args : Args) (t : FsNode)
    (prevLog : Option (List String)) (hv : dirsValid t = true)
    (hc : args.commit = true) :
    do_delete args (some t) false prevLog
      = .ok ⟨survivors t, removedPaths args.start_dir t,
             deletings args.start_dir t, errLines args.start_dir t,
             if args.skip_log_file then prevLog
             else some (removedPaths args.start_dir t)⟩ := by
  have hw := walk_commit t args.start_dir hv
  cases hsk : args.skip_log_file <;> simp [do_delete, hw, hc, hsk]

/-- C5 witness: the first candidate (`node_modules`) fails with cause
`denied`; the error line is emitted, the failed path is not recorded,
and the later candidates (a `vendor` nested inside the failed directory,
and a sibling `target`) are still removed. -/
theorem c5_witness :
    dirsValid
        (.dir (.utf8 "r") none
          (.cons (.dir (.utf8 "node_modules") (some "denied")
                   (.cons (.dir (.utf8 "vendor") none .nil) .nil))
            (.cons (.dir (.utf8 "target") none .nil) .nil))) = true
    ∧ do_delete ⟨"r", true, true⟩
        (some (.dir (.utf8 "r") none
          (.cons (.dir (.utf8 "node_modules") (some "denied")
                   (.cons (.dir (.utf8 "vendor") none .nil) .nil))
            (.cons (.dir (.utf8 "target") none .nil) .nil))))
        false none
      = .ok ⟨survivors
               (.dir (.utf8 "r") none
                 (.cons (.dir (.utf8 "node_modules") (some "denied")
                          (.cons (.dir (.utf8 "vendor") none .nil) .nil))
                   (.cons (.dir (.utf8 "target") none .nil) .nil))),
             removedPaths "r"
               (.dir (.utf8 "r") none
                 (.cons (.dir (.utf8 "node_modules") (some "denied")
                          (.cons (.dir (.utf8 "vendor") none .nil) .nil))
                   (.cons (.dir (.utf8 "target") none .nil) .nil))),
             deletings "r"
               (.dir (.utf8 "r") none
                 (.cons (.dir (.utf8 "node_modules") (some "denied")
                          (.cons (.dir (.utf8 "vendor") none .nil) .nil))
                   (.cons (.dir (.utf8 "target") none .nil) .nil))),
             errLines "r"
               (.dir (.utf8 "r") none
                 (.cons (.dir (.utf8 "node_modules") (some "denied")
                          (.cons (.dir (.utf8 "vendor") none .nil) .nil))
                   (.cons (.dir (.utf8 "target") none .nil) .nil))),
             none⟩ :=
  ⟨by decide,
   c5_individual_failure_not_fatal ⟨"r", true, true⟩ _ none (by decide) rfl⟩

/-- C7: When `start_dir` cannot be walked (it does not exist, or
`WalkDir` cannot read it, so its only item is an error dropped by
`filter_map(|e| e.ok())`), the walk yields no entries — nothing printed,
nothing deleted — and with working log I/O the run returns `Ok` for
every combination of the `commit` and `skip_log_file` flags; a
committing, logging run still writes the (empty) log file. -/
theorem c7_missing_start_dir_ok (args : Args) (prevLog : Option (List String)) :
    do_delete args none false prevLog
      = .ok ⟨none, [], [], [],
             if args.commit && !args.skip_log_file then some [] else prevLog⟩ := by
  cases hc : args.commit <;> cases hsk : args.skip_log_file <;>
    simp [do_delete, hc, hsk]

/-- C1 counterexample: the claim states that a committing run leaves
every directory whose base name is not deny-listed on disk and never
deletes non-directory entries.  On the tree
`proj/node_modules/{keep_me/, data.txt}` the committing run succeeds,
yet afterwards the non-deny-named directory `keep_me` and the file
`data.txt` are gone: they were inside the removed `node_modules`, whose
recursive removal deletes everything beneath it. -/
theorem c1_counterexample :
    dirAtO (some (.dir (.utf8 "proj") none
        (.cons (.dir (.utf8 "node_modules") none
          (.cons (.dir (.utf8 "keep_me") none .nil)
            (.cons (.file (.utf8 "data.txt")) .nil))) .nil)))
      ["node_modules", "keep_me"] = true
    ∧ fileAtO (some (.dir (.utf8 "proj") none
        (.cons (.dir (.utf8 "node_modules") none
          (.cons (.dir (.utf8 "keep_me") none .nil)
            (.cons (.file (.utf8 "data.txt")) .nil))) .nil)))
      ["node_modules", "data.txt"] = true
    ∧ (do_delete ⟨"proj", true, true⟩
        (some (.dir (.utf8 "proj") none
          (.cons (.dir (.utf8 "node_modules") none
            (.cons (.dir (.utf8 "keep_me") none .nil)
              (.cons (.file (.utf8 "data.txt")) .nil))) .nil)))
        false none).isOk = true
    ∧ dirAtO (fsAfter (do_delete ⟨"proj", true, true⟩
        (some (.dir (.utf8 "proj") none
          (.cons (.dir (.utf8 "node_modules") none
            (.cons (.dir (.utf8 "keep_me") none .nil)
              (.cons (.file (.utf8 "data.txt")) .nil))) .nil)))
        false none)) ["node_modules", "keep_me"] = false
    ∧ fileAtO (fsAfter (do_delete ⟨"proj", true, true⟩
        (some (.dir (.utf8 "proj") none
          (.cons (.dir (.utf8 "node_modules") none
            (.cons (.dir (.utf8 "keep_me") none .nil)
              (.cons (.file (.utf8 "data.txt")) .nil))) .nil)))
        false none)) ["node_modules", "data.txt"] = false := by
  decide

/-- C1 (amended): a committing run in which every attempted removal
succeeds removes exactly the subtrees rooted at deny-named directories:
the tree left on disk is `pruneDeny t`; a directory is still on disk iff
it was there before and neither it, nor the root, nor any directory on
the path to it is deny-named; a non-directory entry is still on disk iff
it was there before and no deny-named directory lies on the path to it.
In particular every deny-named directory is removed, and every
directory or file nested beneath surviving directories only is left
untouched — but entries beneath a removed deny-named directory disappear
with it. -/
theorem c1_committing_run_prunes_denylist (args : Args) (t : FsNode)
    (logIOFails : Bool) (prevLog : Option (List String))
    (hv : dirsValid t = true) (hn : noFailures t = true)
    (hc : args.commit = true) :
    fsAfter (do_delete args (some t) logIOFails prevLog) = pruneDeny t
    ∧ (∀ q, dirAtO (fsAfter (do_delete args (some t) logIOFails prevLog)) q
        = (t.dirAt q && !nameDeny t.name && cleanComponents q))
    ∧ (∀ q, fileAtO (fsAfter (do_delete args (some t) logIOFails prevLog)) q
        = (t.fileAt q && fileClean t q)) := by
  have hw := walk_commit t args.start_dir hv
  have hfs : fsAfter (do_delete args (some t) logIOFails prevLog)
      = survivors t := by
    cases hsk : args.skip_log_file <;> cases hlf : logIOFails <;>
      simp [do_delete, hw, hc, hsk, hlf, fsAfter]
  rw [hfs, survivors_eq_prune t hn]
  exact ⟨rfl, fun q => dirAt_prune t q, fun q => fileAt_prune t q⟩

/-- C1 witness: the committing run on
`root/{vendor/, should_remain/}` leaves exactly the pruned tree. -/
theorem c1_witness :
    dirsValid (.dir (.utf8 "root") none
        (.cons (.dir (.utf8 "vendor") none .nil)
          (.cons (.dir (.utf8 "should_remain") none .nil) .nil))) = true
    ∧ noFailures (.dir (.utf8 "root") none
        (.cons (.dir (.utf8 "vendor") none .nil)
          (.cons (.dir (.utf8 "should_remain") none .nil) .nil))) = true
    ∧ fsAfter (do_delete ⟨"root", true, false⟩
        (some (.dir (.utf8 "root") none
          (.cons (.dir (.utf8 "vendor") none .nil)
            (.cons (.dir (.utf8 "should_remain") none .nil) .nil))))
        false none)
      = pruneDeny (.dir (.utf8 "root") none
          (.cons (.dir (.utf8 "vendor") none .nil)
            (.cons (.dir (.utf8 "should_remain") none .nil) .nil))) :=
  ⟨by decide, by decide,
   (c1_committing_run_prunes_denylist ⟨"root", true, false⟩ _ false none
     (by decide) (by decide) rfl).1⟩

/-- C4: a directory is a deletion candidate exactly when its base name
is an exact, case-sensitive member of the deny-list: the membership test
the walk applies to every directory name holds iff the name equals
`node_modules`, `vendor` or `target` verbatim, and on a single
directory the dry-run walk emits its `Would delete` notice iff that
exact equality holds (so names differing by case or by surrounding
characters are never candidates). -/
theorem c4_candidate_iff_exact_name (s : String) (re : Option String)
    (p : String) :
    (nameDeny (.utf8 s) = true
      ↔ (s = "node_modules" ∨ s = "vendor" ∨ s = "target"))
    ∧ walkNode false p (.dir (.utf8 s) re .nil)
        = some ⟨some (.dir (.utf8 s) re .nil), [],
                if s = "node_modules" ∨ s = "vendor" ∨ s = "target"
                then ["Would delete " ++ p] else [], []⟩ := by
  have hiff : nameDeny (FName.utf8 s) = true
      ↔ (s = "node_modules" ∨ s = "vendor" ∨ s = "target") := by
    simp [nameDeny, FName.toStr, DIRS_TO_DELETE]
  have hv : dirsValid (.dir (.utf8 s) re .nil) = true := by
    simp [dirsValid, dirsValidF, FName.toStr]
  have hw := walk_dry (.dir (.utf8 s) re .nil) p hv
  refine ⟨hiff, ?_⟩
  rw [hw]
  by_cases h : s = "node_modules" ∨ s = "vendor" ∨ s = "target"
  · simp [dryOut, cands, candsF, hiff.mpr h, h]
  · have hden : nameDeny (FName.utf8 s) = false := by
      cases hx : nameDeny (FName.utf8 s)
      · rfl
      · exact absurd (hiff.mp hx) h
    simp [dryOut, cands, candsF, hden, h]

/-- C6: when the user asked for a committing, logging run
(`commit = true`, `skip_log_file = false`) and the log file cannot be
created or written, the error is propagated as the overall result of
`do_delete`: the invocation returns a failure (`Err`), whatever was
walked and whatever the previous log content. -/
theorem c6_log_io_failure_fatal (args : Args) (root : Option FsNode)
    (prevLog : Option (List String)) (hv : dirsValidO root = true)
    (hc : args.commit = true) (hs : args.skip_log_file = false) :
    (do_delete args root true prevLog).isFatal = true := by
  cases root with
  | none => simp [do_delete, hc, hs, RunOutcome.isFatal]
  | some t =>
    have hw := walk_commit t args.start_dir (by simpa [dirsValidO] using hv)
    simp [do_delete, hw, hc, hs, RunOutcome.isFatal]

/-- C6 witness: a committing, logging run over `r/target` with failing
log I/O ends in a propagated error. -/
theorem c6_witness :
    dirsValidO (some (.dir (.utf8 "r") none
        (.cons (.dir (.utf8 "target") none .nil) .nil))) = true
    ∧ (do_delete ⟨"r", true, false⟩
        (some (.dir (.utf8 "r") none
          (.cons (.dir (.utf8 "target") none .nil) .nil)))
        true (some ["old"])).isFatal = true :=
  ⟨by decide,
   c6_log_io_failure_fatal ⟨"r", true, false⟩ _ (some ["old"]) (by decide)
     rfl rfl⟩

/-- C8: when `skip_log_file` is true, the run returns `Ok` and the log
file is neither created nor written: its content after the run is
whatever it was before, for either value of `commit`, however many
directories were deleted, and even if log I/O would have failed. -/
theorem c8_skip_log_leaves_log_alone (args : Args) (root : Option FsNode)
    (logIOFails : Bool) (prevLog : Option (List String))
    (hv : dirsValidO root = true) (hs : args.skip_log_file = true) :
    (do_delete args root logIOFails prevLog).isOk = true
    ∧ ((do_delete args root logIOFails prevLog).outOf).map Output.log
        = some prevLog := by
  cases root with
  | none =>
    cases hc : args.commit <;>
      simp [do_delete, hc, hs, RunOutcome.isOk, RunOutcome.outOf]
  | some t =>
    have hv' : dirsValid t = true := by simpa [dirsValidO] using hv
    cases hc : args.commit
    · have hw := walk_dry t args.start_dir hv'
      simp [do_delete, hw, hc, hs, RunOutcome.isOk, RunOutcome.outOf]
    · have hw := walk_commit t args.start_dir hv'
      simp [do_delete, hw, hc, hs, RunOutcome.isOk, RunOutcome.outOf]

/-- C8 witness: a committing run that deletes `r/vendor`, with
`skip_log_file = true` and even failing log I/O, returns `Ok` and
leaves the stale log content in place. -/
theorem c8_witness :
    dirsValidO (some (.dir (.utf8 "r") none
        (.cons (.dir (.utf8 "vendor") none .nil) .nil))) = true
    ∧ ((do_delete ⟨"r", true, true⟩
          (some (.dir (.utf8 "r") none
            (.cons (.dir (.utf8 "vendor") none .nil) .nil)))
          true (some ["old"])).isOk = true
       ∧ ((do_delete ⟨"r", true, true⟩
            (some (.dir (.utf8 "r") none
              (.cons (.dir (.utf8 "vendor") none .nil) .nil)))
            true (some ["old"])).outOf).map Output.log = some (some ["old"])) :=
  ⟨by decide,
   c8_skip_log_leaves_log_alone ⟨"r", true, true⟩ _ true (some ["old"])
     (by decide) rfl⟩

/-- C9: the program is partial: if the walk reaches a directory whose
base name is not valid UTF-8, `to_str().unwrap()` panics — witnessed by
a start_dir that is itself such a directory — and whenever every visited
entry has a UTF-8 base name, no panic occurs and `do_delete` returns a
`Result` (`Ok` or `Err`). -/
theorem c9_non_utf8_dir_name_panics (args : Args) (root : Option FsNode)
    (logIOFails : Bool) (prevLog : Option (List String))
    (hv : allValidO root = true) :
    do_delete ⟨"d", true, true⟩
        (some (.dir (.nonUtf8 0) none .nil)) false none = .panicked
    ∧ (do_delete args root logIOFails prevLog).outOf.isSome = true := by
  refine ⟨rfl, ?_⟩
  cases root with
  | none =>
    cases hc : args.commit <;> cases hsk : args.skip_log_file <;>
      cases hlf : logIOFails <;>
        simp [do_delete, hc, hsk, hlf, RunOutcome.outOf]
  | some t =>
    have hv' := allValid_dirsValid t (by simpa [allValidO] using hv)
    cases hc : args.commit
    · have hw := walk_dry t args.start_dir hv'
      simp [do_delete, hw, hc, RunOutcome.outOf]
    · have hw := walk_commit t args.start_dir hv'
      cases hsk : args.skip_log_file <;> cases hlf : logIOFails <;>
        simp [do_delete, hw, hc, hsk, hlf, RunOutcome.outOf]

/-- C9 witness: on a fully UTF-8 tree containing `node_modules`, a
committing logging run returns a `Result` rather than panicking. -/
theorem c9_witness :
    allValidO (some (.dir (.utf8 "r") none
        (.cons (.dir (.utf8 "node_modules") none
          (.cons (.file (.utf8 "a.txt")) .nil)) .nil))) = true
    ∧ (do_delete ⟨"r", true, false⟩
        (some (.dir (.utf8 "r") none
          (.cons (.dir (.utf8 "node_modules") none
            (.cons (.file (.utf8 "a.txt")) .nil)) .nil)))
        false none).outOf.isSome = true :=
  ⟨by decide,
   (c9_non_utf8_dir_name_panics ⟨"r", true, false⟩ _ false none (by decide)).2⟩

/-- C10: `WalkDir` yields `start_dir` itself, so when the root's own
base name is deny-listed (and its removal succeeds), a committing run
deletes `start_dir` with its entire contents — the tree at `start_dir`
is gone, the deletion record and stdout consist of exactly the root's
path — while a dry run merely reports it as the first candidate and
leaves the tree intact. -/
theorem c10_start_dir_itself_candidate (args : Args) (s : String)
    (cs : FsForest) (logIOFails : Bool) (prevLog : Option (List String))
    (hs : DIRS_TO_DELETE.contains s = true) (hv : dirsValidF cs = true) :
    (args.commit = true →
      ((do_delete args (some (.dir (.utf8 s) none cs)) logIOFails
          prevLog).outOf).map Output.fs = some none
      ∧ ((do_delete args (some (.dir (.utf8 s) none cs)) logIOFails
          prevLog).outOf).map Output.deleted = some [args.start_dir]
      ∧ ((do_delete args (some (.dir (.utf8 s) none cs)) logIOFails
          prevLog).outOf).map Output.stdout
          = some ["Deleting " ++ args.start_dir])
    ∧ (args.commit = false →
      do_delete args (some (.dir (.utf8 s) none cs)) logIOFails prevLog
        = .ok ⟨some (.dir (.utf8 s) none cs), [],
               ("Would delete " ++ args.start_dir) :: dryOutF args.start_dir cs,
               [], prevLog⟩) := by
  have hmem : s ∈ DIRS_TO_DELETE := by simpa using hs
  constructor
  · intro hc
    have hwn : walkNode true args.start_dir (.dir (.utf8 s) none cs)
        = some ⟨none, [args.start_dir], ["Deleting " ++ args.start_dir], []⟩ := by
      simp [walkNode, FName.toStr, hmem]
    cases hsk : args.skip_log_file <;> cases hlf : logIOFails <;>
      simp [do_delete, hwn, hc, hsk, hlf, RunOutcome.outOf]
  · intro hc
    have hv' : dirsValid (.dir (.utf8 s) none cs) = true := by
      simp [dirsValid, FName.toStr, hv]
    have hw := walk_dry (.dir (.utf8 s) none cs) args.start_dir hv'
    rw [show dryOut args.start_dir (.dir (.utf8 s) none cs)
          = ("Would delete " ++ args.start_dir) :: dryOutF args.start_dir cs from by
        simp [dryOut, dryOutF, cands, nameDeny, FName.toStr, hmem]] at hw
    simp [do_delete, hw, hc]

/-- C10 witness: `start_dir` itself named `node_modules` with one file
inside; the committing run removes it entirely and records its path. -/
theorem c10_witness :
    DIRS_TO_DELETE.contains "node_modules" = true
    ∧ ((do_delete ⟨"the/node_modules", true, true⟩
          (some (.dir (.utf8 "node_modules") none
            (.cons (.file (.utf8 "a.txt")) .nil))) false none).outOf).map
        Output.fs = some none
    ∧ ((do_delete ⟨"the/node_modules", true, true⟩
          (some (.dir (.utf8 "node_modules") none
            (.cons (.file (.utf8 "a.txt")) .nil))) false none).outOf).map
        Output.deleted = some ["the/node_modules"] :=
  ⟨by decide,
   ((c10_start_dir_itself_candidate ⟨"the/node_modules", true, true⟩
      "node_modules" (.cons (.file (.utf8 "a.txt")) .nil) false none
      (by decide) (by decide)).1 rfl).1,
   ((c10_start_dir_itself_candidate ⟨"the/node_modules", true, true⟩
      "node_modules" (.cons (.file (.utf8 "a.txt")) .nil) false none
      (by decide) (by decide)).1 rfl).2.1⟩
